import Mathlib

/-!
Verification development for the `openai-api` JavaScript client.

The repository has three source pieces:
* `config.js`: pure URL-builder functions over a fixed origin and version prefix;
* `index.js`: the `OpenAI` facade class with its dispatcher `_send_request`
  (key-casing transform, headers, body selection), the embeddings engine-name
  validator, and one facade method per remote resource;
* a TypeScript declaration file (types only, no behaviour).

The embedding below translates those JavaScript functions into executable Lean
definitions.  JavaScript objects (options bags) are modelled as ordered
association lists; JavaScript strings are modelled as Lean strings over their
characters, with the ASCII fragment of `toLowerCase` (the regex `[A-Z]` in the
source is ASCII-only).  Issuing an HTTP request is modelled by returning a
`Request` value describing the call; consequently a method that throws before
building a `Request` has performed no network activity, and mutation of a
caller-supplied bag is modelled by returning the bag as the caller sees it
after the call.
-/

/-- JavaScript values stored in an options bag.  The client only ever inspects
strings (engine names); numbers and booleans cover the truthiness behaviour
the source exercises, and every value is forwarded opaquely (integer numbers
suffice since no claim depends on a numeric value). -/
inductive JVal where
  | vStr (s : String)
  | vNum (n : Int)
  | vBool (b : Bool)
  deriving DecidableEq

/-- An options bag: a JavaScript object modelled as an ordered association
list from property names to values.  JavaScript objects cannot hold duplicate
keys; theorems that depend on this carry a `Nodup` hypothesis. -/
abbrev Bag := List (String × JVal)

/-- JavaScript truthiness for the values of our model (`""`, `0` and `false`
are falsy), as used by `opts.engine || DEFAULT_ENGINE` in the source. -/
def truthy : JVal → Bool
  | JVal.vStr s => !(s == "")
  | JVal.vNum n => !(n == 0)
  | JVal.vBool b => b

/-- Template-literal stringification of a value.  Faithful for the string and
boolean cases; only strings ever reach URL interpolation in the claims. -/
def jsInterp : JVal → String
  | JVal.vStr s => s
  | JVal.vNum n => toString n
  | JVal.vBool b => cond b "true" "false"

/-- Template-literal stringification of a possibly-absent property
(JavaScript renders the absent case as "undefined"). -/
def jsInterpOpt : Option JVal → String
  | some v => jsInterp v
  | none => "undefined"

/- URL configuration module (`config.js`). -/

def DEFAULT_ENGINE : String := "davinci"

def ORIGIN : String := "https://api.openai.com"

def API_VERSION : String := "v1"

def OPEN_AI_URL : String := ORIGIN ++ "/" ++ API_VERSION

/-- Builds the completion URL for the given engine (`config.completionURL`). -/
def completionURL (engine : String) : String :=
  OPEN_AI_URL ++ "/engines/" ++ engine ++ "/completions"

/-- Builds the search URL for the given engine (`config.searchURL`). -/
def searchURL (engine : String) : String :=
  OPEN_AI_URL ++ "/engines/" ++ engine ++ "/search"

/-- The engines listing endpoint (`config.enginesUrl`). -/
def enginesUrl : String := OPEN_AI_URL ++ "/engines"

/-- The per-engine endpoint (`config.engineUrl`). -/
def engineUrl (engine : String) : String := OPEN_AI_URL ++ "/engines/" ++ engine

/-- The classifications endpoint (`config.classificationsUrl`). -/
def classificationsUrl : String := OPEN_AI_URL ++ "/classifications"

/-- The files endpoint (`config.filesUrl`). -/
def filesUrl : String := OPEN_AI_URL ++ "/files"

/-- The answers endpoint (`config.answersUrl`). -/
def answersUrl : String := OPEN_AI_URL ++ "/answers"

/-- Builds the embeddings URL for the given engine (`config.embeddingsUrl`). -/
def embeddingsUrl (engine : String) : String :=
  OPEN_AI_URL ++ "/engines/" ++ engine ++ "/embeddings"

/- The key-casing transform inside `_send_request`:
     `key.replace(/([A-Z])/g, " $1").split(' ').join('_').toLowerCase()` -/

/-- The ASCII uppercase test of the regex class `[A-Z]`. -/
def jsIsUpper (c : Char) : Bool := 65 ≤ c.toNat && c.toNat ≤ 90

/-- ASCII lowercasing of a character, the fragment of `String.toLowerCase`
relevant to the source (which only manipulates ASCII option names). -/
def jsToLower (c : Char) : Char :=
  if jsIsUpper c then Char.ofNat (c.toNat + 32) else c

/-- The replacement `key.replace(/([A-Z])/g, " $1")`: a space is inserted in
front of every ASCII uppercase letter. -/
def insertSpaceBeforeUpper : List Char → List Char
  | [] => []
  | c :: cs =>
    if jsIsUpper c then ' ' :: c :: insertSpaceBeforeUpper cs
    else c :: insertSpaceBeforeUpper cs

/-- JavaScript `split(' ')`: splits on every single space character, keeping
empty fragments. -/
def splitOnSpace : List Char → List (List Char)
  | [] => [[]]
  | c :: cs =>
    match splitOnSpace cs with
    | [] => [[]]
    | w :: ws => if c = ' ' then [] :: w :: ws else (c :: w) :: ws

/-- JavaScript `join('_')`: concatenates the fragments with a single
underscore between consecutive fragments. -/
def joinUnderscore : List (List Char) → List Char
  | [] => []
  | [w] => w
  | w :: w2 :: ws => w ++ '_' :: joinUnderscore (w2 :: ws)

/-- The key-casing transform `camelToUnderscore` defined inside
`_send_request`: insert a space before each uppercase letter, replace the
spaces by underscores via split/join, then lowercase the whole key. -/
def camelToUnderscore (key : String) : String :=
  String.mk ((joinUnderscore (splitOnSpace (insertSpaceBeforeUpper key.data))).map jsToLower)

/-- JavaScript property assignment `data[k] = v` on an object modelled as an
association list: overwrite the value in place if the key is present
(JavaScript objects keep unique keys), otherwise append the new property. -/
def objInsert : List (String × JVal) → String → JVal → List (String × JVal)
  | [], k, v => [(k, v)]
  | (k1, v1) :: rest, k, v =>
    if k1 = k then (k, v) :: rest else (k1, v1) :: objInsert rest k v

/-- One iteration of the `for (const key in opts)` loop of `_send_request`:
`data[camelToUnderscore(key)] = opts[key]`. -/
def transformStep (d : Bag) (p : String × JVal) : Bag :=
  objInsert d (camelToUnderscore p.1) p.2

/-- The `data` object built by `_send_request` from the options bag: every
key is rewritten by the key-casing transform, in iteration order. -/
def transformData (opts : Bag) : Bag := opts.foldl transformStep []

/-- The request body sent by the dispatcher: the JavaScript value
`Object.keys(data).length ? data : ''` is either the empty string or the
`data` object serialized as JSON. -/
inductive Body where
  | empty
  | json (fields : List (String × JVal))
  deriving DecidableEq

/-- An outbound HTTP request as handed to `axios`: URL, headers, body and
method.  Issuing the network call itself is outside the model; a `Request`
value records exactly what would be sent. -/
structure Request where
  url : String
  headers : List (String × String)
  data : Body
  method : String
  deriving DecidableEq

/-- The `OpenAI` facade class.  Its constructor stores the API key in
`this._api_key`; that is the only state, and nothing in the model (or the
source) ever writes it after construction. -/
structure OpenAI where
  _api_key : String

/-- The dispatcher `_send_request(url, method, opts = {})`: transforms the
option keys, attaches the bearer-token and content-type headers, and sends
either an empty body (when `data` has no keys) or the JSON body `data`. -/
def OpenAI._send_request (self : OpenAI) (url : String) (method : String) (opts : Bag) : Request :=
  let data := transformData opts
  ⟨url,
   [("Authorization", "Bearer " ++ self._api_key), ("Content-Type", "application/json")],
   if data.isEmpty then Body.empty else Body.json data,
   method⟩

/-- The fixed allow-list of embeddings engine names from
`_check_embeddings_engine_name`. -/
def availableEngineNames : List String :=
  [ "text-similarity-ada-001",
    "text-similarity-babbage-001",
    "text-similarity-curie-001",
    "text-similarity-davinci-001",
    "text-search-ada-doc-001",
    "text-search-ada-query-001",
    "text-search-babbage-doc-001",
    "text-search-babbage-query-001",
    "text-search-curie-doc-001",
    "text-search-curie-query-001",
    "text-search-davinci-doc-001",
    "text-search-davinci-query-001",
    "code-search-ada-code-001",
    "code-search-ada-text-001",
    "code-search-babbage-code-001",
    "code-search-babbage-text-001" ]

/-- The message of the error thrown for an invalid embeddings engine name:
the template literal stringifies the array by joining it with commas.  Note
that the attempted engine value is not part of the message. -/
def embeddingsErrorMessage : String :=
  "Unknown engine name for embeddings. Available engine names are " ++
    String.intercalate "," availableEngineNames

/-- The membership test `availableEngineNames.includes(engine)` applied to
the property value `opts.engine` (absent, i.e. `undefined`, or non-string
values are never members of the string list). -/
def engineNameOk (engine : Option JVal) : Bool :=
  match engine with
  | some (JVal.vStr s) => availableEngineNames.contains s
  | _ => false

/-- The validator `_check_embeddings_engine_name(engine)`: throws (modelled
as `Except.error`) unless the engine value is a member of the allow-list. -/
def OpenAI._check_embeddings_engine_name (_self : OpenAI) (engine : Option JVal) :
    Except String Unit :=
  if engineNameOk engine then Except.ok () else Except.error embeddingsErrorMessage

/-- The expression `opts.engine || DEFAULT_ENGINE` used by `complete` and
`search`: the property value when it is present and truthy, the default
engine otherwise. -/
def engineArg (opts : Bag) : JVal :=
  match List.lookup "engine" opts with
  | some v => if truthy v then v else JVal.vStr DEFAULT_ENGINE
  | none => JVal.vStr DEFAULT_ENGINE

/-- JavaScript `delete opts.engine`: removes the property, keeping every
other property in its original order. -/
def jsDelete (opts : Bag) (k : String) : Bag :=
  opts.filter (fun p => !(p.1 == k))

/-- `complete(opts)`: builds the completion URL from `opts.engine` (or the
default engine), deletes the `engine` property from the caller's bag, and
posts the remaining options.  The second component is the caller's bag as it
stands after the call (the source mutates it in place). -/
def OpenAI.complete (self : OpenAI) (opts : Bag) : Request × Bag :=
  let url := completionURL (jsInterp (engineArg opts))
  let rest := jsDelete opts "engine"
  (self._send_request url "post" rest, rest)

/-- `encode()`: a stub that performs no network call and resolves to 2047
empty strings.  The first component lists the requests issued (none). -/
def OpenAI.encode (_self : OpenAI) (_input : Option JVal) : List Request × List String :=
  ([], List.replicate 2047 "")

/-- `search(opts)`: like `complete` but against the search URL. -/
def OpenAI.search (self : OpenAI) (opts : Bag) : Request × Bag :=
  let url := searchURL (jsInterp (engineArg opts))
  let rest := jsDelete opts "engine"
  (self._send_request url "post" rest, rest)

/-- `answers(opts)`: posts the options to the answers endpoint; the caller's
bag is not touched. -/
def OpenAI.answers (self : OpenAI) (opts : Bag) : Request × Bag :=
  (self._send_request answersUrl "post" opts, opts)

/-- `classification(opts)`: posts the options to the classifications
endpoint; the caller's bag is not touched. -/
def OpenAI.classification (self : OpenAI) (opts : Bag) : Request × Bag :=
  (self._send_request classificationsUrl "post" opts, opts)

/-- `engines()`: GET on the engines listing endpoint with no options (the
dispatcher's default `opts = {}`). -/
def OpenAI.engines (self : OpenAI) : Request :=
  self._send_request enginesUrl "get" []

/-- `engine(engine)`: GET on the per-engine endpoint with no options. -/
def OpenAI.engine (self : OpenAI) (engine : String) : Request :=
  self._send_request (engineUrl engine) "get" []

/-- `embeddings(opts)`: validates `opts.engine` against the allow-list
(throwing before any request is built on failure), then posts the whole bag
— `engine` property included, nothing deleted — to the embeddings URL built
from `opts.engine`. -/
def OpenAI.embeddings (self : OpenAI) (opts : Bag) : Except String (Request × Bag) :=
  match self._check_embeddings_engine_name (List.lookup "engine" opts) with
  | Except.error e => Except.error e
  | Except.ok _ =>
    Except.ok
      (self._send_request (embeddingsUrl (jsInterpOpt (List.lookup "engine" opts))) "post" opts,
       opts)

/-- Character-level description of the key-casing transform, used to state
what the pipeline of replace/split/join/lowercase computes: an ASCII
uppercase letter becomes an underscore followed by its lowercase form, a
space becomes an underscore, and every other character is lowercased. -/
def keyCharMap (c : Char) : List Char :=
  if jsIsUpper c then ['_', jsToLower c]
  else if c = ' ' then ['_']
  else [jsToLower c]

/-- The character-level transform applied to a whole key. -/
def keySpec : List Char → List Char
  | [] => []
  | c :: cs => keyCharMap c ++ keySpec cs

/-- Decidable substring test: `containsSub needle hay` holds when `needle`
occurs contiguously inside `hay`. -/
def containsSub (needle hay : String) : Bool :=
  (List.range (hay.data.length + 1)).any
    (fun i => needle.data.isPrefixOf (hay.data.drop i))

/-! Helper lemmas about the key-casing transform. -/

lemma splitOnSpace_ne_nil (l : List Char) : splitOnSpace l ≠ [] := by
  cases l with
  | nil => simp [splitOnSpace]
  | cons c cs =>
    rcases h : splitOnSpace cs with _ | ⟨w, ws⟩
    · simp [splitOnSpace, h]
    · by_cases hc : c = ' ' <;> simp [splitOnSpace, h, hc]

lemma joinUnderscore_cons_cons (c : Char) (w : List Char) (ws : List (List Char)) :
    joinUnderscore ((c :: w) :: ws) = c :: joinUnderscore (w :: ws) := by
  cases ws with
  | nil => rfl
  | cons w2 ws2 => simp [joinUnderscore]

lemma join_split (l : List Char) :
    joinUnderscore (splitOnSpace l) = l.map (fun c => if c = ' ' then '_' else c) := by
  induction l with
  | nil => rfl
  | cons c cs ih =>
    rcases h : splitOnSpace cs with _ | ⟨w, ws⟩
    · exact absurd h (splitOnSpace_ne_nil cs)
    · have hs : splitOnSpace (c :: cs) =
          if c = ' ' then [] :: w :: ws else (c :: w) :: ws := by
        simp [splitOnSpace, h]
      by_cases hc : c = ' '
      · rw [hs, if_pos hc]
        have hj : joinUnderscore ([] :: w :: ws) = '_' :: joinUnderscore (w :: ws) := by
          simp [joinUnderscore]
        rw [hj, ← h, ih]
        simp [hc]
      · rw [hs, if_neg hc, joinUnderscore_cons_cons, ← h, ih]
        simp [hc]

lemma jsToLower_eq_self (c : Char) (h : jsIsUpper c = false) : jsToLower c = c := by
  simp [jsToLower, h]

lemma ne_space_of_isUpper (c : Char) (h : jsIsUpper c = true) : c ≠ ' ' := by
  intro hc
  rw [hc] at h
  exact absurd h (by decide)

lemma jsToLower_underscore : jsToLower '_' = '_' := by decide

lemma spec_of_pipeline (l : List Char) :
    ((insertSpaceBeforeUpper l).map (fun c => if c = ' ' then '_' else c)).map jsToLower =
      keySpec l := by
  induction l with
  | nil => rfl
  | cons c cs ih =>
    by_cases hu : jsIsUpper c
    · have hcs : ¬(c = ' ') := ne_space_of_isUpper c hu
      simp [insertSpaceBeforeUpper, hu, keySpec, keyCharMap, hcs, ih, jsToLower_underscore]
    · have hu2 : jsIsUpper c = false := by simpa using hu
      by_cases hsp : c = ' '
      · subst hsp
        simp [insertSpaceBeforeUpper, hu2, keySpec, keyCharMap, ih, jsToLower_underscore]
      · simp [insertSpaceBeforeUpper, hu2, hsp, keySpec, keyCharMap, ih]

lemma camel_eq_keySpec (key : String) :
    camelToUnderscore key = String.mk (keySpec key.data) := by
  unfold camelToUnderscore
  rw [join_split, spec_of_pipeline]

lemma keySpec_no_underscore (l : List Char) (h : '_' ∉ keySpec l) : keySpec l = l := by
  induction l with
  | nil => rfl
  | cons c cs ih =>
    by_cases hu : jsIsUpper c
    · exact absurd (by simp [keySpec, keyCharMap, hu]) (fun hm => h hm)
    · have hu2 : jsIsUpper c = false := by simpa using hu
      by_cases hsp : c = ' '
      · subst hsp
        exact absurd (by simp [keySpec, keyCharMap, hu2]) (fun hm => h hm)
      · have h2 : '_' ∉ keySpec cs := fun hm => h (by simp [keySpec, hm])
        simp [keySpec, keyCharMap, hu2, hsp, jsToLower_eq_self c hu2, ih h2]

lemma keySpec_eq_self (l : List Char)
    (h : ∀ c ∈ l, jsIsUpper c = false ∧ c ≠ ' ') : keySpec l = l := by
  induction l with
  | nil => rfl
  | cons c cs ih =>
    obtain ⟨hu, hsp⟩ := h c (List.mem_cons_self c cs)
    simp [keySpec, keyCharMap, hu, hsp, jsToLower_eq_self c hu,
      ih (fun d hd => h d (List.mem_cons_of_mem c hd))]

lemma camel_preimage_engine (k : String) (h : camelToUnderscore k = "engine") :
    k = "engine" := by
  rw [camel_eq_keySpec] at h
  have hd : keySpec k.data = "engine".data := by
    have h2 := congrArg String.data h
    simpa using h2
  have hn : '_' ∉ keySpec k.data := by
    rw [hd]; decide
  have hk : k.data = "engine".data := by
    rw [← keySpec_no_underscore k.data hn, hd]
  have hmk : k = String.mk k.data := rfl
  rw [hmk, hk]

/-! Helper lemmas about the `data` object built by the dispatcher. -/

lemma lookup_cons_self (k : String) (v : JVal) (l : Bag) :
    List.lookup k ((k, v) :: l) = some v := by
  simp [List.lookup]

lemma lookup_cons_ne (a k : String) (v : JVal) (l : Bag) (h : a ≠ k) :
    List.lookup a ((k, v) :: l) = List.lookup a l := by
  have hb : (a == k) = false := by simp [h]
  simp [List.lookup, hb]

lemma objInsert_ne_nil (d : Bag) (k : String) (v : JVal) : objInsert d k v ≠ [] := by
  cases d with
  | nil => simp [objInsert]
  | cons p rest =>
    obtain ⟨k1, v1⟩ := p
    by_cases h : k1 = k <;> simp [objInsert, h]

lemma lookup_objInsert (d : Bag) (k K : String) (v : JVal) :
    List.lookup K (objInsert d k v) = if K = k then some v else List.lookup K d := by
  induction d with
  | nil =>
    by_cases h : K = k
    · rw [if_pos h, h]
      exact lookup_cons_self k v []
    · rw [if_neg h]
      exact lookup_cons_ne K k v [] h
  | cons p rest ih =>
    obtain ⟨k1, v1⟩ := p
    by_cases h1 : k1 = k
    · subst h1
      have ho : objInsert ((k1, v1) :: rest) k1 v = (k1, v) :: rest := by
        simp [objInsert]
      rw [ho]
      by_cases h2 : K = k1
      · subst h2
        rw [if_pos rfl, lookup_cons_self]
      · rw [if_neg h2, lookup_cons_ne K k1 v rest h2, lookup_cons_ne K k1 v1 rest h2]
    · have ho : objInsert ((k1, v1) :: rest) k v = (k1, v1) :: objInsert rest k v := by
        simp [objInsert, h1]
      rw [ho]
      by_cases h2 : K = k1
      · subst h2
        have hKk : ¬(K = k) := h1
        rw [lookup_cons_self, if_neg hKk, lookup_cons_self]
      · rw [lookup_cons_ne K k1 v1 _ h2, lookup_cons_ne K k1 v1 rest h2, ih]

lemma objInsert_append (d : Bag) (k : String) (v : JVal)
    (h : k ∉ d.map Prod.fst) : objInsert d k v = d ++ [(k, v)] := by
  induction d with
  | nil => rfl
  | cons p rest ih =>
    obtain ⟨k1, v1⟩ := p
    have h1 : k1 ≠ k := by
      intro hk
      exact h (by simp [hk])
    simp only [objInsert, if_neg h1, List.cons_append, List.cons.injEq, true_and]
    exact ih (fun hm => h (by simp at hm ⊢; exact Or.inr hm))

lemma foldl_transformStep_ne_nil (opts : Bag) :
    ∀ d : Bag, d ≠ [] → opts.foldl transformStep d ≠ [] := by
  induction opts with
  | nil => intro d h; simpa using h
  | cons p rest ih =>
    intro d _
    simp only [List.foldl_cons]
    exact ih _ (objInsert_ne_nil _ _ _)

lemma transformData_eq_nil_iff (opts : Bag) : transformData opts = [] ↔ opts = [] := by
  constructor
  · intro h
    cases opts with
    | nil => rfl
    | cons p rest =>
      exact absurd (by simpa [transformData] using h)
        (foldl_transformStep_ne_nil rest (transformStep [] p) (objInsert_ne_nil _ _ _))
  · intro h
    subst h
    rfl

lemma lookup_foldl_of_ne (opts : Bag) (K : String)
    (h : ∀ p ∈ opts, camelToUnderscore p.1 ≠ K) :
    ∀ d : Bag, List.lookup K (opts.foldl transformStep d) = List.lookup K d := by
  induction opts with
  | nil => intro d; rfl
  | cons p rest ih =>
    intro d
    simp only [List.foldl_cons]
    rw [ih (fun q hq => h q (List.mem_cons_of_mem p hq)) _]
    rw [transformStep, lookup_objInsert, if_neg]
    intro hK
    exact h p (List.mem_cons_self p rest) hK.symm

lemma lookup_foldl_found (l1 l2 : Bag) (k0 : String) (v0 : JVal)
    (h2 : ∀ p ∈ l2, camelToUnderscore p.1 ≠ camelToUnderscore k0) (d : Bag) :
    List.lookup (camelToUnderscore k0) ((l1 ++ (k0, v0) :: l2).foldl transformStep d) =
      some v0 := by
  rw [List.foldl_append]
  simp only [List.foldl_cons]
  rw [lookup_foldl_of_ne l2 _ h2 _]
  rw [transformStep, lookup_objInsert, if_pos rfl]

lemma lookup_split (l : Bag) (a : String) (v : JVal) (h : List.lookup a l = some v) :
    ∃ l1 l2, l = l1 ++ (a, v) :: l2 := by
  induction l with
  | nil => simp [List.lookup] at h
  | cons p rest ih =>
    obtain ⟨k1, v1⟩ := p
    by_cases hk : a = k1
    · subst hk
      rw [lookup_cons_self] at h
      have hv : v1 = v := Option.some.inj h
      exact ⟨[], rest, by simp [hv]⟩
    · rw [lookup_cons_ne a k1 v1 rest hk] at h
      obtain ⟨l1, l2, hl⟩ := ih h
      exact ⟨(k1, v1) :: l1, l2, by rw [hl]; rfl⟩

lemma transformData_map (opts : Bag)
    (hnd : (opts.map (fun p => camelToUnderscore p.1)).Nodup) :
    transformData opts = opts.map (fun p => (camelToUnderscore p.1, p.2)) := by
  have main : ∀ (os : Bag) (d : Bag),
      (os.map (fun p => camelToUnderscore p.1)).Nodup →
      (∀ p ∈ os, camelToUnderscore p.1 ∉ d.map Prod.fst) →
      os.foldl transformStep d = d ++ os.map (fun p => (camelToUnderscore p.1, p.2)) := by
    intro os
    induction os with
    | nil => intro d _ _; simp
    | cons p rest ih =>
      intro d hn hd
      simp only [List.map_cons] at hn
      have hn2 : (rest.map (fun p => camelToUnderscore p.1)).Nodup := hn.of_cons
      have hhd : camelToUnderscore p.1 ∉ rest.map (fun p => camelToUnderscore p.1) :=
        (List.nodup_cons.mp hn).1
      have hfresh : ∀ q ∈ rest,
          camelToUnderscore q.1 ∉ (d ++ [(camelToUnderscore p.1, p.2)]).map Prod.fst := by
        intro q hq
        simp only [List.map_append, List.mem_append]
        rintro (hm | hm)
        · exact hd q (List.mem_cons_of_mem p hq) hm
        · simp only [List.map_cons, List.map_nil, List.mem_singleton] at hm
          apply hhd
          rw [← hm]
          exact List.mem_map_of_mem (fun r => camelToUnderscore r.1) hq
      simp only [List.foldl_cons]
      rw [transformStep, objInsert_append d _ _ (hd p (List.mem_cons_self p rest))]
      rw [ih (d ++ [(camelToUnderscore p.1, p.2)]) hn2 hfresh]
      simp
  have h0 := main opts [] hnd (by simp)
  simpa [transformData] using h0

/-! The claims. -/

/-- Claim C4: every URL builder returns exactly the documented string under
origin `https://api.openai.com` and version prefix `v1`, with the engine
identifier interpolated verbatim; the builders are total functions on
strings, so they always succeed. -/
theorem claim_C4 (e : String) :
    completionURL e = "https://api.openai.com/v1/engines/" ++ e ++ "/completions"
    ∧ searchURL e = "https://api.openai.com/v1/engines/" ++ e ++ "/search"
    ∧ embeddingsUrl e = "https://api.openai.com/v1/engines/" ++ e ++ "/embeddings"
    ∧ engineUrl e = "https://api.openai.com/v1/engines/" ++ e
    ∧ enginesUrl = "https://api.openai.com/v1/engines"
    ∧ classificationsUrl = "https://api.openai.com/v1/classifications"
    ∧ answersUrl = "https://api.openai.com/v1/answers"
    ∧ filesUrl = "https://api.openai.com/v1/files" := by
  exact ⟨rfl, rfl, rfl, rfl, rfl, rfl, rfl, rfl⟩

/-- Claim C1 counterexample: the key "a b" contains no uppercase letter, yet
the transform does not leave it unchanged — it rewrites it to "a_b", because
the split/join step also turns pre-existing spaces into underscores. -/
theorem claim_C1_counterexample :
    ("a b".data.all (fun c => !(jsIsUpper c))) = true
    ∧ camelToUnderscore "a b" ≠ "a b"
    ∧ transformData [("a b", JVal.vNum 3)] ≠ [("a b", JVal.vNum 3)]
    ∧ transformData [("a b", JVal.vNum 3)] = [("a_b", JVal.vNum 3)] := by
  refine ⟨by decide, by decide, by decide, by decide⟩

/-- Claim C1 (amended): for every options bag whose keys remain distinct
after the transform (the data model invariant already excludes collisions),
the dispatcher rewrites each key by replacing every ASCII uppercase letter
with an underscore followed by its lowercase form, replacing every space
with an underscore, and lowercasing the remaining characters; keys with no
uppercase letters and no spaces are unchanged; "maxTokens" maps to
"max_tokens", "topP" maps to exactly "top_p" (no trailing separator), and
the empty mapping maps to the empty mapping. -/
theorem claim_C1_amended (k : String) (opts : Bag) (v w : JVal)
    (hnd : (opts.map (fun p => camelToUnderscore p.1)).Nodup) :
    camelToUnderscore k = String.mk (keySpec k.data)
    ∧ ((∀ c ∈ k.data, jsIsUpper c = false ∧ c ≠ ' ') → camelToUnderscore k = k)
    ∧ transformData opts = opts.map (fun p => (camelToUnderscore p.1, p.2))
    ∧ camelToUnderscore "maxTokens" = "max_tokens"
    ∧ camelToUnderscore "topP" = "top_p"
    ∧ transformData [("n", v)] = [("n", v)]
    ∧ transformData [("maxTokens", v), ("topP", w)] = [("max_tokens", v), ("top_p", w)]
    ∧ transformData [] = [] := by
  refine ⟨camel_eq_keySpec k, ?_, transformData_map opts hnd, by decide, by decide, ?_, ?_, rfl⟩
  · intro h
    rw [camel_eq_keySpec k, keySpec_eq_self k.data h]
  · simp [transformData, transformStep, objInsert,
      (show camelToUnderscore "n" = "n" by decide)]
  · simp [transformData, transformStep, objInsert,
      (show camelToUnderscore "maxTokens" = "max_tokens" by decide),
      (show camelToUnderscore "topP" = "top_p" by decide)]

/-- Claim C1 witness: the amended statement evaluated on the spec's concrete
examples. -/
theorem claim_C1_witness :
    transformData [("maxTokens", JVal.vNum 5), ("topP", JVal.vNum 9)] =
      [("max_tokens", JVal.vNum 5), ("top_p", JVal.vNum 9)]
    ∧ camelToUnderscore "n" = "n" := by
  have h := claim_C1_amended "n" [("maxTokens", JVal.vNum 5), ("topP", JVal.vNum 9)]
      (JVal.vNum 5) (JVal.vNum 9) (by decide)
  exact ⟨h.2.2.2.2.2.2.1, h.2.1 (by decide)⟩

set_option maxRecDepth 80000 in
/-- Claim C5 counterexample: the error raised for the invalid engine name
"not-a-real-engine" does not contain the attempted value anywhere in its
message — the message is a constant that only lists the valid names. -/
theorem claim_C5_counterexample :
    (OpenAI.mk "key")._check_embeddings_engine_name (some (JVal.vStr "not-a-real-engine")) =
      Except.error embeddingsErrorMessage
    ∧ containsSub "not-a-real-engine" embeddingsErrorMessage = false := by
  constructor
  · rfl
  · decide

set_option maxRecDepth 80000 in
/-- Claim C5 (amended): for every engine value not in the allow-list, the
error raised by the embeddings validator has a fixed message that includes
the list of valid engine names (joined with commas) but not the attempted
value. -/
theorem claim_C5_amended (c : OpenAI) (v : Option JVal)
    (h : engineNameOk v = false) :
    c._check_embeddings_engine_name v = Except.error embeddingsErrorMessage
    ∧ embeddingsErrorMessage =
        "Unknown engine name for embeddings. Available engine names are " ++
          String.intercalate "," availableEngineNames
    ∧ availableEngineNames.all (fun s => containsSub s embeddingsErrorMessage) = true := by
  refine ⟨?_, rfl, by decide⟩
  simp [OpenAI._check_embeddings_engine_name, h]

/-- Claim C5 witness: the amended statement evaluated at a concrete invalid
engine value. -/
theorem claim_C5_witness :
    (OpenAI.mk "key")._check_embeddings_engine_name (some (JVal.vStr "zzz")) =
      Except.error embeddingsErrorMessage :=
  (claim_C5_amended (OpenAI.mk "key") (some (JVal.vStr "zzz")) (by decide)).1

/-- Claim C6 counterexample: a caller-supplied engine that is the empty
string is not used — `opts.engine || DEFAULT_ENGINE` discards falsy values,
so the request targets the default engine instead of the supplied one. -/
theorem claim_C6_counterexample :
    ((OpenAI.mk "key").complete [("engine", JVal.vStr "")]).1.url =
      completionURL DEFAULT_ENGINE
    ∧ ((OpenAI.mk "key").complete [("engine", JVal.vStr "")]).1.url ≠ completionURL "" := by
  constructor
  · rfl
  · decide

/-- Claim C6 (amended): `complete` and `search` build their URL with the
fixed default engine "davinci" when the engine field is absent or holds a
falsy value (such as the empty string); when the caller supplies a truthy
engine string, that engine is used instead. -/
theorem claim_C6_amended (c : OpenAI) (opts : Bag) :
    (List.lookup "engine" opts = none →
      (c.complete opts).1.url = completionURL DEFAULT_ENGINE
      ∧ (c.search opts).1.url = searchURL DEFAULT_ENGINE)
    ∧ (∀ v, List.lookup "engine" opts = some v → truthy v = false →
      (c.complete opts).1.url = completionURL DEFAULT_ENGINE
      ∧ (c.search opts).1.url = searchURL DEFAULT_ENGINE)
    ∧ (∀ s, List.lookup "engine" opts = some (JVal.vStr s) → s ≠ "" →
      (c.complete opts).1.url = completionURL s
      ∧ (c.search opts).1.url = searchURL s) := by
  refine ⟨?_, ?_, ?_⟩
  · intro h
    constructor <;>
      simp [OpenAI.complete, OpenAI.search, OpenAI._send_request, engineArg, h, jsInterp]
  · intro v h ht
    constructor <;>
      simp [OpenAI.complete, OpenAI.search, OpenAI._send_request, engineArg, h, ht, jsInterp]
  · intro s h hs
    have ht : truthy (JVal.vStr s) = true := by simp [truthy, hs]
    constructor <;>
      simp [OpenAI.complete, OpenAI.search, OpenAI._send_request, engineArg, h, ht, jsInterp]

/-- Claim C6 witness: the amended statement evaluated with the engine field
absent and with a concrete truthy engine. -/
theorem claim_C6_witness :
    ((OpenAI.mk "key").complete []).1.url = completionURL DEFAULT_ENGINE
    ∧ ((OpenAI.mk "key").complete [("engine", JVal.vStr "ada")]).1.url = completionURL "ada" := by
  refine ⟨((claim_C6_amended (OpenAI.mk "key") []).1 rfl).1, ?_⟩
  exact ((claim_C6_amended (OpenAI.mk "key")
    [("engine", JVal.vStr "ada")]).2.2 "ada" rfl (by decide)).1

/-- Claim C2: `embeddings` fails synchronously — returning an error without
ever building a request — exactly when `opts.engine` is not a member of the
16-element allow-list; for every member the validation succeeds silently and
the request proceeds; and no other client method validates engine names:
`complete`, `search` and `engine` accept any engine string (membership in
the allow-list never checked) and always produce a request. -/
theorem claim_C2 (c : OpenAI) (opts : Bag) :
    availableEngineNames.length = 16
    ∧ (engineNameOk (List.lookup "engine" opts) = true →
        c.embeddings opts =
          Except.ok
            (c._send_request
              (embeddingsUrl (jsInterpOpt (List.lookup "engine" opts))) "post" opts,
             opts))
    ∧ (engineNameOk (List.lookup "engine" opts) = false →
        c.embeddings opts = Except.error embeddingsErrorMessage)
    ∧ (∀ s ∈ availableEngineNames, engineNameOk (some (JVal.vStr s)) = true)
    ∧ (∀ e : String, e ≠ "" →
        (c.complete [("engine", JVal.vStr e)]).1.url = completionURL e
        ∧ (c.search [("engine", JVal.vStr e)]).1.url = searchURL e
        ∧ (c.engine e).url = engineUrl e) := by
  refine ⟨by decide, ?_, ?_, ?_, ?_⟩
  · intro h
    simp [OpenAI.embeddings, OpenAI._check_embeddings_engine_name, h]
  · intro h
    simp [OpenAI.embeddings, OpenAI._check_embeddings_engine_name, h]
  · intro s hs
    simp [engineNameOk, hs]
  · intro e he
    have ht : truthy (JVal.vStr e) = true := by simp [truthy, he]
    refine ⟨?_, ?_, rfl⟩ <;>
      simp [OpenAI.complete, OpenAI.search, OpenAI._send_request, engineArg,
        lookup_cons_self, ht, jsInterp]

/-- Claim C2 witness: the validation outcome evaluated at a member of the
allow-list, at a non-member, and at a non-member engine used with
`complete` (which performs no validation). -/
theorem claim_C2_witness :
    (OpenAI.mk "key").embeddings [("engine", JVal.vStr "text-similarity-ada-001")] =
      Except.ok
        ((OpenAI.mk "key")._send_request
          (embeddingsUrl
            (jsInterpOpt
              (List.lookup "engine" [("engine", JVal.vStr "text-similarity-ada-001")])))
          "post" [("engine", JVal.vStr "text-similarity-ada-001")],
         [("engine", JVal.vStr "text-similarity-ada-001")])
    ∧ (OpenAI.mk "key").embeddings [("engine", JVal.vStr "not-in-the-list")] =
      Except.error embeddingsErrorMessage
    ∧ ((OpenAI.mk "key").complete [("engine", JVal.vStr "not-in-the-list")]).1.url =
      completionURL "not-in-the-list" := by
  refine ⟨?_, ?_, ?_⟩
  · exact (claim_C2 (OpenAI.mk "key")
      [("engine", JVal.vStr "text-similarity-ada-001")]).2.1 (by decide)
  · exact (claim_C2 (OpenAI.mk "key")
      [("engine", JVal.vStr "not-in-the-list")]).2.2.1 (by decide)
  · exact ((claim_C2 (OpenAI.mk "key")
      [("engine", JVal.vStr "not-in-the-list")]).2.2.2.2 "not-in-the-list" (by decide)).1

/-- Claim C3: for every URL, method and options bag handed to the
dispatcher, the request body is empty exactly when the transformed mapping
has no keys (equivalently, when the caller's bag itself is empty), and
otherwise it is the transformed mapping serialized as the JSON body. -/
theorem claim_C3 (c : OpenAI) (url m : String) (opts : Bag) :
    (transformData opts = [] → (c._send_request url m opts).data = Body.empty)
    ∧ (transformData opts ≠ [] →
        (c._send_request url m opts).data = Body.json (transformData opts))
    ∧ (transformData opts = [] ↔ opts = []) := by
  refine ⟨?_, ?_, transformData_eq_nil_iff opts⟩
  · intro h
    simp [OpenAI._send_request, h]
  · intro h
    have hb : (transformData opts).isEmpty = false := by
      rw [← Bool.not_eq_true, List.isEmpty_iff]
      exact h
    simp [OpenAI._send_request, hb]

/-- Claim C3 witness: the dispatcher evaluated on an empty and a non-empty
options bag. -/
theorem claim_C3_witness :
    ((OpenAI.mk "key")._send_request "u" "post" []).data = Body.empty
    ∧ ((OpenAI.mk "key")._send_request "u" "post" [("n", JVal.vNum 3)]).data =
        Body.json (transformData [("n", JVal.vNum 3)]) := by
  refine ⟨(claim_C3 (OpenAI.mk "key") "u" "post" []).1 rfl, ?_⟩
  exact (claim_C3 (OpenAI.mk "key") "u" "post" [("n", JVal.vNum 3)]).2.1 (by decide)

/-- Claim C7: every outbound request carries exactly the two headers
`Authorization: Bearer <key>` and `Content-Type: application/json`, where
the key is the one captured at construction; the model's client state is the
key alone and no operation produces a modified client, so the stored key is
never modified after construction (the stub `encode` issues no request at
all). -/
theorem claim_C7 (c : OpenAI) (url m e : String) (opts : Bag) (input : Option JVal) :
    (c._send_request url m opts).headers =
      [("Authorization", "Bearer " ++ c._api_key), ("Content-Type", "application/json")]
    ∧ (c.complete opts).1.headers =
      [("Authorization", "Bearer " ++ c._api_key), ("Content-Type", "application/json")]
    ∧ (c.search opts).1.headers =
      [("Authorization", "Bearer " ++ c._api_key), ("Content-Type", "application/json")]
    ∧ (c.answers opts).1.headers =
      [("Authorization", "Bearer " ++ c._api_key), ("Content-Type", "application/json")]
    ∧ (c.classification opts).1.headers =
      [("Authorization", "Bearer " ++ c._api_key), ("Content-Type", "application/json")]
    ∧ c.engines.headers =
      [("Authorization", "Bearer " ++ c._api_key), ("Content-Type", "application/json")]
    ∧ (c.engine e).headers =
      [("Authorization", "Bearer " ++ c._api_key), ("Content-Type", "application/json")]
    ∧ (∀ r b, c.embeddings opts = Except.ok (r, b) →
        r.headers =
          [("Authorization", "Bearer " ++ c._api_key), ("Content-Type", "application/json")])
    ∧ (c.encode input).1 = [] := by
  refine ⟨rfl, rfl, rfl, rfl, rfl, rfl, rfl, ?_, rfl⟩
  intro r b h
  cases hb : engineNameOk (List.lookup "engine" opts) with
  | false =>
    simp [OpenAI.embeddings, OpenAI._check_embeddings_engine_name, hb] at h
  | true =>
    simp only [OpenAI.embeddings, OpenAI._check_embeddings_engine_name, hb, if_pos,
      Except.ok.injEq, Prod.mk.injEq] at h
    obtain ⟨h1, h2⟩ := h
    rw [← h1]
    rfl

/-- Claim C7 witness: the headers of a concrete `complete` request and of a
concrete (valid) `embeddings` request. -/
theorem claim_C7_witness :
    ((OpenAI.mk "key").complete []).1.headers =
      [("Authorization", "Bearer key"), ("Content-Type", "application/json")]
    ∧ ((OpenAI.mk "key")._send_request
        (embeddingsUrl
          (jsInterpOpt (List.lookup "engine" [("engine", JVal.vStr "text-similarity-ada-001")])))
        "post" [("engine", JVal.vStr "text-similarity-ada-001")]).headers =
      [("Authorization", "Bearer key"), ("Content-Type", "application/json")] := by
  have h := claim_C7 (OpenAI.mk "key") "u" "post" "ada"
      [("engine", JVal.vStr "text-similarity-ada-001")] none
  exact ⟨(claim_C7 (OpenAI.mk "key") "u" "post" "ada" [] none).2.1,
    h.2.2.2.2.2.2.2.1 _ _ rfl⟩

/-- Claim C8: `complete` and `search` remove the `engine` property from the
caller-supplied bag — what remains are exactly the other properties, in
their original order — and the dispatcher is handed (and performs no further
mutation of) exactly that remaining bag. -/
theorem claim_C8 (c : OpenAI) (opts : Bag) :
    (∀ p : String × JVal, p ∈ (c.complete opts).2 ↔ p ∈ opts ∧ p.1 ≠ "engine")
    ∧ List.Sublist (c.complete opts).2 opts
    ∧ (c.search opts).2 = (c.complete opts).2
    ∧ (c.complete opts).1 =
        c._send_request (completionURL (jsInterp (engineArg opts))) "post" ((c.complete opts).2)
    ∧ (c.search opts).1 =
        c._send_request (searchURL (jsInterp (engineArg opts))) "post" ((c.search opts).2) := by
  refine ⟨?_, List.filter_sublist opts, rfl, rfl, rfl⟩
  intro p
  show p ∈ jsDelete opts "engine" ↔ _
  rw [jsDelete, List.mem_filter]
  constructor
  · rintro ⟨hm, hf⟩
    refine ⟨hm, ?_⟩
    intro hk
    rw [hk] at hf
    simp at hf
  · rintro ⟨hm, hk⟩
    refine ⟨hm, ?_⟩
    simp [hk]

/-- Claim C8 witness: after a concrete `complete` call the engine property
is gone from the caller's bag while the other property survives. -/
theorem claim_C8_witness :
    ("prompt", JVal.vStr "hi") ∈
      ((OpenAI.mk "key").complete
        [("engine", JVal.vStr "ada"), ("prompt", JVal.vStr "hi")]).2
    ∧ ¬ (("engine", JVal.vStr "ada") ∈
      ((OpenAI.mk "key").complete
        [("engine", JVal.vStr "ada"), ("prompt", JVal.vStr "hi")]).2) := by
  have h := claim_C8 (OpenAI.mk "key") [("engine", JVal.vStr "ada"), ("prompt", JVal.vStr "hi")]
  constructor
  · exact (h.1 ("prompt", JVal.vStr "hi")).mpr ⟨by decide, by decide⟩
  · intro hm
    exact ((h.1 ("engine", JVal.vStr "ada")).mp hm).2 rfl

/-- Claim C9: `encode` issues no network call for any input and resolves to
a fixed sequence of exactly 2047 empty strings. -/
theorem claim_C9 (c : OpenAI) (input : Option JVal) :
    c.encode input = ([], List.replicate 2047 "")
    ∧ (c.encode input).1 = []
    ∧ (c.encode input).2.length = 2047
    ∧ (c.encode input).2.all (fun s => s == "") = true := by
  refine ⟨rfl, rfl, List.length_replicate 2047 "", ?_⟩
  rw [List.all_eq_true]
  intro s hs
  have h2 : s = "" := List.eq_of_mem_replicate hs
  simp [h2]

/-- Claim C10: for a valid engine, `embeddings` returns the caller's bag
unchanged (no key deleted, unlike `complete` and `search`), and the engine
name is sent twice: interpolated into the URL path and kept as the `engine`
field of the JSON request body. -/
theorem claim_C10 (c : OpenAI) (opts : Bag) (s : String)
    (h1 : List.lookup "engine" opts = some (JVal.vStr s))
    (h2 : s ∈ availableEngineNames)
    (h3 : (opts.map Prod.fst).Nodup) :
    c.embeddings opts =
      Except.ok (c._send_request (embeddingsUrl s) "post" opts, opts)
    ∧ (c._send_request (embeddingsUrl s) "post" opts).data = Body.json (transformData opts)
    ∧ List.lookup "engine" (transformData opts) = some (JVal.vStr s) := by
  have hok : engineNameOk (some (JVal.vStr s)) = true := by
    simp only [engineNameOk]
    simpa using h2
  refine ⟨?_, ?_, ?_⟩
  · simp [OpenAI.embeddings, OpenAI._check_embeddings_engine_name, hok, h1,
      jsInterpOpt, jsInterp]
  · have hne : opts ≠ [] := by
      intro he
      rw [he] at h1
      simp [List.lookup] at h1
    have hb : (transformData opts).isEmpty = false := by
      rw [← Bool.not_eq_true, List.isEmpty_iff]
      intro htd
      exact hne ((transformData_eq_nil_iff opts).mp htd)
    simp [OpenAI._send_request, hb]
  · obtain ⟨l1, l2, hl⟩ := lookup_split opts "engine" (JVal.vStr s) h1
    have hnotin : "engine" ∉ l2.map Prod.fst := by
      rw [hl] at h3
      simp only [List.map_append, List.map_cons] at h3
      exact (List.nodup_cons.mp (List.nodup_append.mp h3).2.1).1
    have hl2 : ∀ p ∈ l2, camelToUnderscore p.1 ≠ camelToUnderscore "engine" := by
      intro p hp he
      have he2 : camelToUnderscore p.1 = "engine" := by
        rw [he]
        decide
      have hp1 : p.1 = "engine" := camel_preimage_engine p.1 he2
      exact hnotin (hp1 ▸ List.mem_map_of_mem Prod.fst hp)
    have hfound := lookup_foldl_found l1 l2 "engine" (JVal.vStr s) hl2 []
    rw [show camelToUnderscore "engine" = "engine" from by decide] at hfound
    rw [transformData, hl]
    exact hfound

/-- Claim C10 witness: a concrete valid `embeddings` call, showing the
unchanged bag, the engine in the URL, and the engine field in the JSON
body. -/
theorem claim_C10_witness :
    (OpenAI.mk "key").embeddings
        [("engine", JVal.vStr "text-similarity-ada-001"), ("input", JVal.vStr "hello")] =
      Except.ok
        ((OpenAI.mk "key")._send_request (embeddingsUrl "text-similarity-ada-001") "post"
          [("engine", JVal.vStr "text-similarity-ada-001"), ("input", JVal.vStr "hello")],
         [("engine", JVal.vStr "text-similarity-ada-001"), ("input", JVal.vStr "hello")])
    ∧ List.lookup "engine"
        (transformData
          [("engine", JVal.vStr "text-similarity-ada-001"), ("input", JVal.vStr "hello")]) =
      some (JVal.vStr "text-similarity-ada-001") := by
  have h := claim_C10 (OpenAI.mk "key")
      [("engine", JVal.vStr "text-similarity-ada-001"), ("input", JVal.vStr "hello")]
      "text-similarity-ada-001" (by decide) (by decide) (by decide)
  exact ⟨h.1, h.2.2⟩
